import Mathlib

/-!
Verification development for the gemini_webScrapper repository.

Shallow embedding of the crawl / link-resolution / knowledge-base-indexing
core of the repository (src/web_scraper.py, src/knowledge_base_formatter.py,
src/llama_processor.py, src/config.py), followed by theorems settling the
frozen claims about that core.

Modelling conventions:
- Python dicts are modelled as association lists with insert-or-update
  semantics that preserve key insertion order (`dictSet` / `dictGet`).
- `list.sort(key=k, reverse=True)` (CPython timsort: stable, here used with
  reverse=True which keeps ties in original order) is modelled by the stable
  insertion sort `sortDesc`.
- Relevance scores (Python floats such as 0.2, 0.9, 0.5) are modelled as
  rationals; the code only ever compares them, and the comparisons agree.
- URLs are modelled in parsed form (the result of urllib.parse.urlparse):
  a record of scheme, netloc, path, query, fragment, with `geturl` the
  string rendering (mirroring urlunsplit for the scheme://netloc shapes the
  scraper handles).
- The network (requests + BeautifulSoup + urljoin resolution of hrefs) is
  modelled as a `World` function from a URL string to the fetched page: its
  whitespace-normalized text, the absolute (post-urljoin) anchor URLs, and
  the parsed base URL.
- The `while` loop of `scrape_website` is modelled with an explicit step
  budget `fuel`; invariant theorems are proved for every budget, hence for
  every terminating execution of the loop.
-/

/-- Python dict lookup `m.get(k)` on an association list keyed by first
component (first match wins; keys are unique by construction of `dictSet`). -/
def dictGet {κ β : Type} [DecidableEq κ] : List (κ × β) → κ → Option β
  | [], _ => none
  | p :: rest, k => if p.1 = k then some p.2 else dictGet rest k

/-- Python dict assignment `m[k] = v`: update in place if the key exists
(preserving insertion order), otherwise append at the end. -/
def dictSet {κ β : Type} [DecidableEq κ] : List (κ × β) → κ → β → List (κ × β)
  | [], k, v => [(k, v)]
  | p :: rest, k, v => if p.1 = k then (k, v) :: rest else p :: dictSet rest k v

/-- One insertion step of the stable descending insertion sort: `x` passes
over elements with strictly greater key and stops in front of the first
element whose key is ≤ its own, so equal-key elements keep their original
relative order. -/
def insertDesc {α β : Type} [LinearOrder β] (key : α → β) (x : α) : List α → List α
  | [] => [x]
  | y :: l => if key y ≤ key x then x :: y :: l else y :: insertDesc key x l

/-- Stable sort by `key` in non-increasing order; models CPython
`list.sort(key=key, reverse=True)` / `sorted(..., key=key, reverse=True)`,
which is stable (ties keep their original relative order). -/
def sortDesc {α β : Type} [LinearOrder β] (key : α → β) (l : List α) : List α :=
  l.foldr (insertDesc key) []

/-- Parsed URL, the result of `urllib.parse.urlparse` as used by the scraper
(the params component is never consulted and is omitted). -/
structure Url where
  scheme : String
  netloc : String
  path : String
  query : String
  fragment : String
deriving DecidableEq, Repr

/-- String rendering of a parsed URL (`.geturl()`), mirroring urlunsplit for
the absolute `scheme://netloc/...` shapes the scraper works with. -/
def geturl (u : Url) : String :=
  (if u.scheme = "" then "" else u.scheme ++ ":") ++
    (if u.netloc = "" then "" else "//" ++ u.netloc) ++
    u.path ++
    (if u.query = "" then "" else "?" ++ u.query) ++
    (if u.fragment = "" then "" else "#" ++ u.fragment)

/-- Python str.lower, defined over the character list so that proofs can
evaluate it (the URLs and page text in scope are ASCII, where Char.toLower
agrees with Python lowercasing). -/
def str_lower (s : String) : String :=
  String.mk (s.data.map Char.toLower)

/-- Python str.endswith, defined over the character lists. -/
def str_ends_with (s suffix : String) : Bool :=
  suffix.data.isSuffixOf s.data

/-- The fixed skip-list of non-HTML file extensions
(web_scraper.py line 64). -/
def skip_extensions : List String :=
  [".pdf", ".jpg", ".jpeg", ".png", ".gif", ".css", ".js", ".xml", ".zip", ".doc", ".docx"]

/-- WebScraper.is_valid_url (web_scraper.py lines 49-74): valid scheme and
netloc, same netloc as the base, the lower-cased URL STRING does not end
with a skip-list extension, and no fragment. The extension test is
`url.lower().endswith(ext)` on the whole URL string, exactly as in the code. -/
def is_valid_url (u base : Url) : Bool :=
  if u.scheme = "" ∨ u.netloc = "" then false
  else if u.netloc ≠ base.netloc then false
  else if skip_extensions.any (fun ext => str_ends_with (str_lower (geturl u)) ext) then false
  else if u.fragment ≠ "" then false
  else true

/-- Canonicalization used for deduplication (web_scraper.py line 212):
`urlparse(absolute_url)._replace(fragment='', query='').geturl()`. -/
def clean_url (u : Url) : String :=
  geturl { u with query := "", fragment := "" }

/-- WebScraper.find_internal_links (web_scraper.py lines 198-216) on the
anchors of a page, already resolved to absolute URLs by urljoin: keep the
anchors accepted by is_valid_url, canonicalize, drop URLs already in the
visited set, and deduplicate (`list(set(links))`; the arbitrary iteration
order of a CPython set is modelled as first-occurrence order — no settled
claim depends on the order of this list, only on its members). -/
def find_internal_links (anchors : List Url) (base : Url) (visited : List String) : List String :=
  (((anchors.filter fun a => is_valid_url a base).map clean_url).filter
    fun s => decide (¬ s ∈ visited)).dedup

/-- Result of fetch + parse + extraction for one URL: the
whitespace-normalized full text (`all_text`), the absolute post-urljoin
anchor URLs of the page, and the parsed page URL (the `base_url` that
find_internal_links receives). A `World` maps each URL string to this
record, or none when get_page_content fails. -/
structure FetchedPage where
  all_text : String
  anchors : List Url
  base : Url
deriving DecidableEq

/-- The network and HTML-parsing environment, abstracted. -/
def World : Type := String → Option FetchedPage

/-- The slice of the page_data dict (web_scraper.py lines 233-245) that the
settled claims mention; title, headings, paragraphs, list items, link texts
and the timestamp are carried along by the code but not consulted by any
claim. -/
structure PageData where
  url : String
  content : String
  internal_links : List String
deriving DecidableEq, Repr

/-- WebScraper.scrape_page (web_scraper.py lines 218-247): fetch and extract;
discard the page when the extracted text length is below MIN_CONTENT_LENGTH,
otherwise build the page record. `visited` is the scraper's visited_urls at
call time (the crawler adds the current URL before calling scrape_page). -/
def scrape_page (w : World) (minLen : ℕ) (visited : List String) (url : String) :
    Option PageData :=
  match w url with
  | none => none
  | some fp =>
      if fp.all_text.length < minLen then none
      else some ⟨url, fp.all_text, find_internal_links fp.anchors fp.base visited⟩

/-- The frontier-extension loop of scrape_website (web_scraper.py lines
271-273): append each internal link that is neither visited nor already
queued to the back of the frontier. -/
def extend_frontier (frontier visited links : List String) : List String :=
  links.foldl (fun q l => if l ∈ visited ∨ l ∈ q then q else q ++ [l]) frontier

/-- The while loop of WebScraper.scrape_website (web_scraper.py lines
256-280), with an explicit step budget `fuel`. Arguments after the budget:
the frontier (urls_to_visit), the visited set and the accumulated
scraped_data. One iteration: stop if the frontier is empty or MAX_PAGES
records are accumulated; pop the head; skip it if visited; mark visited;
scrape; on success append the record and extend the frontier. -/
def crawl (w : World) (minLen maxPages : ℕ) :
    ℕ → List String → List String → List PageData → List PageData
  | 0, _, _, scraped => scraped
  | _ + 1, [], _, scraped => scraped
  | fuel + 1, url :: rest, visited, scraped =>
    if maxPages ≤ scraped.length then scraped
    else if url ∈ visited then crawl w minLen maxPages fuel rest visited scraped
    else
      match scrape_page w minLen (url :: visited) url with
      | none => crawl w minLen maxPages fuel rest (url :: visited) scraped
      | some pd =>
          crawl w minLen maxPages fuel
            (extend_frontier rest (url :: visited) pd.internal_links)
            (url :: visited) (scraped ++ [pd])

/-- WebScraper.scrape_website (web_scraper.py lines 249-283): the frontier
starts as [start_url], visited_urls is reset to empty, but scraped_data is
NOT reset — it is whatever the instance accumulated before the call
(`scraped_data` argument; a fresh WebScraper has []). -/
def scrape_website (w : World) (minLen maxPages fuel : ℕ)
    (scraped_data : List PageData) (start_url : String) : List PageData :=
  crawl w minLen maxPages fuel [start_url] [] scraped_data

/-- One FAQ question of a processed entry, a dict with `question` and
`answer` keys; the formatter reads them with `.get('question', '')` and
`.get('answer', '')`, which is observationally the stored string. -/
structure FaqQ where
  question : String
  answer : String
deriving DecidableEq, Repr

/-- A processed knowledge-base entry, the dict flowing from
llama_processor.py into knowledge_base_formatter.py. Keys that the
formatter reads through `.get` with a dict-dependent default are modelled
as `Option` fields (`content_type`, default "other"; `relevance_score`,
default 0.5); `processing_method` is present only on fallback entries.
The remaining keys always exist on the dicts the pipeline builds and their
`.get` defaults are observationally the stored value. -/
structure Entry where
  url : String
  title : String
  summary : String
  content_type : Option String
  relevance_score : Option ℚ
  faq_questions : List FaqQ
  key_topics : List String
  keywords : List String
  important_facts : List String
  processed_at : String
  processing_method : Option String
deriving DecidableEq, Repr

/-- The read `entry.get('content_type', 'other')`. -/
def entry_content_type (e : Entry) : String :=
  e.content_type.getD "other"

/-- The read `entry.get('relevance_score', 0.5)`. -/
def entry_relevance (e : Entry) : ℚ :=
  e.relevance_score.getD (1 / 2)

/-- The `{'url', 'title', 'relevance_score'}` record appended to the
by-relevance list, the type buckets and the topic/keyword buckets. -/
structure RelRec where
  url : String
  title : String
  relevance_score : ℚ
deriving DecidableEq, Repr

def mk_rel_rec (e : Entry) : RelRec :=
  ⟨e.url, e.title, entry_relevance e⟩

/-- The by-URL record of the search index
(knowledge_base_formatter.py lines 70-75). -/
structure UrlInfo where
  title : String
  content_type : String
  relevance_score : ℚ
  summary : String
deriving DecidableEq, Repr

/-- The four sub-structures of the search index
(knowledge_base_formatter.py lines 56-61). -/
structure SearchIndex where
  by_url : List (String × UrlInfo)
  by_title : List (String × String)
  by_content_type : List (String × List RelRec)
  by_relevance : List RelRec
deriving DecidableEq, Repr

/-- The body of the per-entry loop of _create_search_index
(knowledge_base_formatter.py lines 63-95). -/
def search_index_step (s : SearchIndex) (e : Entry) : SearchIndex :=
  { by_url := dictSet s.by_url e.url
      ⟨e.title, entry_content_type e, entry_relevance e, e.summary⟩,
    by_title := if e.title ≠ "" then dictSet s.by_title (str_lower e.title) e.url else s.by_title,
    by_content_type := dictSet s.by_content_type (entry_content_type e)
      ((dictGet s.by_content_type (entry_content_type e)).getD [] ++ [mk_rel_rec e]),
    by_relevance := s.by_relevance ++ [mk_rel_rec e] }

/-- KnowledgeBaseFormatter._create_search_index (knowledge_base_formatter.py
lines 54-100): fold the per-entry step over the entries, then sort the
global by-relevance list descending by relevance score (line 98). -/
def create_search_index (l : List Entry) : SearchIndex :=
  let s := l.foldl search_index_step ⟨[], [], [], []⟩
  { s with by_relevance := sortDesc RelRec.relevance_score s.by_relevance }

/-- One consolidated FAQ record
(knowledge_base_formatter.py lines 109-115). -/
structure FaqRec where
  question : String
  answer : String
  source_url : String
  source_title : String
  relevance_score : ℚ
deriving DecidableEq, Repr

/-- The flattened FAQ list before sorting: for each entry in order, one
record per FAQ question in order (the nested loop of
knowledge_base_formatter.py lines 106-116). -/
def faq_raw (l : List Entry) : List FaqRec :=
  (l.map fun e =>
    e.faq_questions.map fun f =>
      (⟨f.question, f.answer, e.url, e.title, entry_relevance e⟩ : FaqRec)).flatten

/-- KnowledgeBaseFormatter._create_faq_section (knowledge_base_formatter.py
lines 102-121): flatten, then sort by relevance score descending. -/
def create_faq_section (l : List Entry) : List FaqRec :=
  sortDesc FaqRec.relevance_score (faq_raw l)

/-- The bucket-building first phase shared by _create_topics_index and
_create_keywords_index (knowledge_base_formatter.py lines 127-141 and
153-167): for each entry, for each string produced by `proj`, append the
entry record to that bucket (creating the bucket on first sight). -/
def buckets_raw (proj : Entry → List String) (l : List Entry) :
    List (String × List RelRec) :=
  l.foldl
    (fun m e =>
      (proj e).foldl
        (fun m2 t => dictSet m2 t ((dictGet m2 t).getD [] ++ [mk_rel_rec e])) m)
    []

/-- KnowledgeBaseFormatter._create_topics_index (knowledge_base_formatter.py
lines 123-147): build the buckets, then sort each bucket by relevance
descending (lines 144-145). -/
def create_topics_index (l : List Entry) : List (String × List RelRec) :=
  (buckets_raw Entry.key_topics l).map fun p => (p.1, sortDesc RelRec.relevance_score p.2)

/-- KnowledgeBaseFormatter._create_keywords_index
(knowledge_base_formatter.py lines 149-173). -/
def create_keywords_index (l : List Entry) : List (String × List RelRec) :=
  (buckets_raw Entry.keywords l).map fun p => (p.1, sortDesc RelRec.relevance_score p.2)

/-- The content-type histogram of the metadata loop
(knowledge_base_formatter.py lines 27-29):
`content_types[ct] = content_types.get(ct, 0) + 1`. -/
def content_types_hist (l : List Entry) : List (String × ℕ) :=
  l.foldl
    (fun m e =>
      dictSet m (entry_content_type e) ((dictGet m (entry_content_type e)).getD 0 + 1))
    []

/-- The accumulation `total_faqs += len(entry.get('faq_questions', []))`
(knowledge_base_formatter.py line 31). -/
def total_faqs_count (l : List Entry) : ℕ :=
  l.foldl (fun n e => n + e.faq_questions.length) 0

/-- The accumulation `total_keywords.update(entry.get('keywords', []))` over
a Python set (knowledge_base_formatter.py line 32). -/
def total_keywords_set (l : List Entry) : Finset String :=
  l.foldl (fun s e => s ∪ e.keywords.toFinset) ∅

/-- The metadata block of the knowledge base
(knowledge_base_formatter.py lines 36-44). -/
structure Metadata where
  website_url : String
  created_at : String
  total_pages : ℕ
  total_faqs : ℕ
  total_keywords : ℕ
  content_types : List (String × ℕ)
  version : String
deriving DecidableEq, Repr

/-- The knowledge base document
(knowledge_base_formatter.py lines 35-50). -/
structure KnowledgeBase where
  metadata : Metadata
  pages : List Entry
  search_index : SearchIndex
  faq_section : List FaqRec
  topics_index : List (String × List RelRec)
  keywords_index : List (String × List RelRec)
deriving DecidableEq, Repr

/-- KnowledgeBaseFormatter.create_knowledge_base_structure
(knowledge_base_formatter.py lines 18-52). `now` is the value of
`datetime.now().isoformat()` at call time (line 38); everything else is
computed from the arguments. -/
def create_knowledge_base_structure (l : List Entry) (website_url now : String) :
    KnowledgeBase :=
  { metadata :=
      { website_url := website_url,
        created_at := now,
        total_pages := l.length,
        total_faqs := total_faqs_count l,
        total_keywords := (total_keywords_set l).card,
        content_types := content_types_hist l,
        version := "1.0" },
    pages := l,
    search_index := create_search_index l,
    faq_section := create_faq_section l,
    topics_index := create_topics_index l,
    keywords_index := create_keywords_index l }

/-- Splitting a character list at every character satisfying `p`, keeping
empty pieces (the semantics of splitting at each delimiter occurrence);
`acc` holds the current piece reversed. -/
def split_chars (p : Char → Bool) : List Char → List Char → List String
  | [], acc => [String.mk acc.reverse]
  | c :: cs, acc =>
      if p c then String.mk acc.reverse :: split_chars p cs []
      else split_chars p cs (c :: acc)

/-- Python `str.split()` with no argument: split on whitespace and drop the
empty pieces, so runs of whitespace act as one separator. -/
def py_split_ws (s : String) : List String :=
  (split_chars (fun c => c.isWhitespace) s.data []).filter fun w => decide (w ≠ "")

/-- The keyword filter of _create_fallback_entry (llama_processor.py line
150): `len(word) > 3 and word.isalpha()` (alphabetic check on each
character; the scraped content in scope is ASCII text). -/
def fallback_word (w : String) : Bool :=
  decide (3 < w.length) && w.data.all Char.isAlpha

/-- The word-frequency dict of _create_fallback_entry (llama_processor.py
lines 147-151), keys in first-occurrence order. -/
def word_freq (ws : List String) : List (String × ℕ) :=
  ws.foldl
    (fun m w => if fallback_word w then dictSet m w ((dictGet m w).getD 0 + 1) else m)
    []

/-- The keyword list of _create_fallback_entry (llama_processor.py lines
154-155): sort the frequency items by count descending (stable), keep the
first 10, project the words. -/
def fallback_keywords (content : String) : List String :=
  ((sortDesc Prod.snd (word_freq (py_split_ws (str_lower content)))).take 10).map Prod.fst

/-- LlamaProcessor._create_fallback_entry (llama_processor.py lines
144-174). `now` is the `time.strftime` value at call time (line 172). -/
def create_fallback_entry (content url title now : String) : Entry :=
  { url := url,
    title := title,
    summary := "Content from " ++ title ++ " - " ++ content.take 200 ++ "...",
    content_type := some "other",
    relevance_score := some (1 / 2),
    faq_questions :=
      [{ question := "What is " ++ title ++ "?",
         answer := if 300 < content.length then content.take 300 ++ "..." else content }],
    key_topics := (fallback_keywords content).take 5,
    keywords := fallback_keywords content,
    important_facts := [if 200 < content.length then content.take 200 ++ "..." else content],
    processed_at := now,
    processing_method := some "fallback" }

/-- The fields a successfully parsed enrichment response contributes
(llama_processor.py lines 87-101); keys may be absent in the parsed JSON. -/
structure ParsedKB where
  summary : String
  key_topics : List String
  faq_questions : List FaqQ
  important_facts : List String
  keywords : List String
  content_type : Option String
  relevance_score : Option ℚ

/-- LlamaProcessor.process_content_for_knowledge_base (llama_processor.py
lines 77-142). `parse` abstracts the code-fence / brace extraction
heuristic plus `json.loads` (lines 111-124): it returns the parsed record,
or none when the extracted text fails to parse (json.JSONDecodeError) — in
which case the function RETURNS the fallback entry rather than raising
(lines 133-138; the outer handler at lines 140-142 does the same for any
other exception). -/
def process_content_for_knowledge_base (parse : String → Option ParsedKB)
    (response content url title now : String) : Entry :=
  match parse response with
  | some p =>
      { url := url,
        title := title,
        summary := p.summary,
        content_type := p.content_type,
        relevance_score := p.relevance_score,
        faq_questions := p.faq_questions,
        key_topics := p.key_topics,
        keywords := p.keywords,
        important_facts := p.important_facts,
        processed_at := now,
        processing_method := none }
  | none => create_fallback_entry content url title now

/-- Filling in the `.get` defaults explicitly: the claim C10 comparison
point. Only `content_type` and `relevance_score` are read through a
non-trivial default by the formatter. -/
def fill_defaults (e : Entry) : Entry :=
  { e with
    content_type := some (entry_content_type e),
    relevance_score := some (entry_relevance e) }

/-- A one-page website used to evaluate the crawler on concrete input. -/
def one_page_url : String := "http://s.com/"

/-- The world of the one-page website: the single page has 100 characters of
text and no anchors. -/
def one_page_world : World := fun u =>
  if u = one_page_url then
    some ⟨String.mk (List.replicate 100 'a'), [], ⟨"http", "s.com", "/", "", ""⟩⟩
  else none

/-- A two-page world exercising the content-length boundary: page a has 99
characters of extracted text, page b has exactly 100. -/
def boundary_world : World := fun u =>
  if u = "http://s.com/a" then
    some ⟨String.mk (List.replicate 99 'a'), [], ⟨"http", "s.com", "/a", "", ""⟩⟩
  else if u = "http://s.com/b" then
    some ⟨String.mk (List.replicate 100 'b'), [], ⟨"http", "s.com", "/b", "", ""⟩⟩
  else none

/-- A concrete processed entry with the given URL, title and relevance
score, one FAQ question, one topic and one keyword, used to evaluate the
formatter on concrete input. -/
def sample_entry (u t : String) (r : ℚ) : Entry :=
  { url := u,
    title := t,
    summary := "s",
    content_type := some "article",
    relevance_score := some r,
    faq_questions := [⟨"q " ++ u, "a " ++ u⟩],
    key_topics := ["topic"],
    keywords := ["word"],
    important_facts := [],
    processed_at := "",
    processing_method := none }

/-- The three entries of the relevance-sorting scenario, with scores 0.2,
0.9 and 0.5 in that order. -/
def score_entries : List Entry :=
  [sample_entry "u1" "t1" (1 / 5), sample_entry "u2" "t2" (9 / 10),
    sample_entry "u3" "t3" (1 / 2)]

/-- Lookup after a dict update: the updated key reads the new value, every
other key is unaffected. -/
theorem dictGet_dictSet {κ β : Type} [DecidableEq κ] (m : List (κ × β)) (k k2 : κ) (v : β) :
    dictGet (dictSet m k v) k2 = if k = k2 then some v else dictGet m k2 := by
  induction m with
  | nil => simp [dictSet, dictGet]
  | cons p rest ih =>
      by_cases h : p.1 = k
      · simp only [dictSet, if_pos h, dictGet]
        split_ifs with h2 <;> simp_all [dictGet]
      · simp only [dictSet, if_neg h, dictGet, ih]
        split_ifs <;> simp_all

/-- The keys after a dict update are the old keys plus the updated key. -/
theorem mem_keys_dictSet {κ β : Type} [DecidableEq κ] (m : List (κ × β)) (k a : κ) (v : β) :
    a ∈ (dictSet m k v).map Prod.fst ↔ a ∈ m.map Prod.fst ∨ a = k := by
  induction m with
  | nil => simp [dictSet]
  | cons p rest ih =>
      by_cases h : p.1 = k
      · simp only [dictSet, if_pos h]
        simp [← h]
        tauto
      · simp only [dictSet, if_neg h, List.map_cons, List.mem_cons, ih]
        tauto

/-- A dict update preserves distinctness of keys. -/
theorem nodup_keys_dictSet {κ β : Type} [DecidableEq κ] (m : List (κ × β)) (k : κ) (v : β)
    (h : (m.map Prod.fst).Nodup) : ((dictSet m k v).map Prod.fst).Nodup := by
  induction m with
  | nil => simp [dictSet]
  | cons p rest ih =>
      simp only [List.map_cons, List.nodup_cons] at h
      by_cases hpk : p.1 = k
      · simpa [dictSet, if_pos hpk, ← hpk] using h
      · simp only [dictSet, if_neg hpk, List.map_cons, List.nodup_cons]
        refine ⟨?_, ih h.2⟩
        rw [mem_keys_dictSet]
        push_neg
        exact ⟨h.1, hpk⟩

/-- A pair of a dict with distinct keys is read back by lookup. -/
theorem dictGet_eq_some_of_mem {κ β : Type} [DecidableEq κ] {m : List (κ × β)}
    (h : (m.map Prod.fst).Nodup) {p : κ × β} (hp : p ∈ m) : dictGet m p.1 = some p.2 := by
  induction m with
  | nil => cases hp
  | cons q rest ih =>
      simp only [List.map_cons, List.nodup_cons] at h
      rcases List.mem_cons.mp hp with h1 | h1
      · subst h1
        simp [dictGet]
      · have : q.1 ≠ p.1 := by
          intro he
          exact h.1 (he ▸ List.mem_map_of_mem Prod.fst h1)
        simp [dictGet, this, ih h.2 h1]

/-- A successful lookup exhibits a member of the dict. -/
theorem mem_of_dictGet_eq_some {κ β : Type} [DecidableEq κ] {m : List (κ × β)} {k : κ} {v : β}
    (h : dictGet m k = some v) : (k, v) ∈ m := by
  induction m with
  | nil => simp [dictGet] at h
  | cons p rest ih =>
      by_cases hp : p.1 = k
      · simp only [dictGet, if_pos hp] at h
        injection h with h
        cases p with
        | mk a b =>
            cases hp
            cases h
            exact List.mem_cons_self _ _
      · simp only [dictGet, if_neg hp] at h
        exact List.mem_cons_of_mem _ (ih h)

/-- Inserting an element is a permutation of consing it. -/
theorem insertDesc_perm {α β : Type} [LinearOrder β] (key : α → β) (x : α) (l : List α) :
    List.Perm (insertDesc key x l) (x :: l) := by
  induction l with
  | nil => rfl
  | cons y l ih =>
      by_cases h : key y ≤ key x
      · simp [insertDesc, if_pos h]
      · simp only [insertDesc, if_neg h]
        exact List.Perm.trans (List.Perm.cons y ih) (List.Perm.swap x y l)

/-- The stable descending sort permutes its input. -/
theorem sortDesc_perm {α β : Type} [LinearOrder β] (key : α → β) (l : List α) :
    List.Perm (sortDesc key l) l := by
  induction l with
  | nil => rfl
  | cons x l ih =>
      exact List.Perm.trans (insertDesc_perm key x (sortDesc key l)) (List.Perm.cons x ih)

/-- The stable descending sort preserves length. -/
theorem length_sortDesc {α β : Type} [LinearOrder β] (key : α → β) (l : List α) :
    (sortDesc key l).length = l.length :=
  (sortDesc_perm key l).length_eq

/-- The stable descending sort preserves membership. -/
theorem mem_sortDesc {α β : Type} [LinearOrder β] (key : α → β) (l : List α) (a : α) :
    a ∈ sortDesc key l ↔ a ∈ l :=
  (sortDesc_perm key l).mem_iff

/-- Inserting into a list sorted by non-increasing key keeps it sorted. -/
theorem sorted_insertDesc {α β : Type} [LinearOrder β] (key : α → β) (x : α) {l : List α}
    (h : l.Sorted fun a b => key b ≤ key a) :
    (insertDesc key x l).Sorted fun a b => key b ≤ key a := by
  induction l with
  | nil => simp [insertDesc]
  | cons y l ih =>
      rw [List.sorted_cons] at h
      by_cases hxy : key y ≤ key x
      · simp only [insertDesc, if_pos hxy, List.sorted_cons]
        refine ⟨?_, h⟩
        intro b hb
        rcases List.mem_cons.mp hb with hb | hb
        · exact hb ▸ hxy
        · exact le_trans (h.1 b hb) hxy
      · simp only [insertDesc, if_neg hxy, List.sorted_cons]
        refine ⟨?_, ih h.2⟩
        intro b hb
        rcases List.mem_cons.mp ((insertDesc_perm key x l).mem_iff.mp hb) with hb | hb
        · exact hb ▸ le_of_lt (lt_of_not_le hxy)
        · exact h.1 b hb

/-- The stable descending sort produces a list sorted by non-increasing
key. -/
theorem sorted_sortDesc {α β : Type} [LinearOrder β] (key : α → β) (l : List α) :
    (sortDesc key l).Sorted fun a b => key b ≤ key a := by
  induction l with
  | nil => simp [sortDesc]
  | cons x l ih => exact sorted_insertDesc key x ih

/-- Stability of insertion, stated on one key class: filtering the inserted
list to a fixed key value either puts the new element first (when it has
that key) or leaves the filtered list unchanged. -/
theorem filter_insertDesc {α β : Type} [LinearOrder β] (key : α → β) (x : α) (l : List α)
    (c : β) :
    (insertDesc key x l).filter (fun a => decide (key a = c)) =
      if key x = c then x :: l.filter (fun a => decide (key a = c))
      else l.filter (fun a => decide (key a = c)) := by
  induction l with
  | nil => by_cases hx : key x = c <;> simp [insertDesc, hx]
  | cons y l ih =>
      by_cases hxy : key y ≤ key x
      · simp only [insertDesc, if_pos hxy]
        by_cases hx : key x = c <;> simp [List.filter_cons, hx]
      · simp only [insertDesc, if_neg hxy, List.filter_cons, ih]
        by_cases hy : key y = c
        · have hx : ¬ key x = c := fun hx => hxy (le_of_eq (hy.trans hx.symm))
          simp [hy, hx]
        · simp [hy]

/-- Stability of the descending sort: within each key class the original
order is preserved (CPython sorts are stable, also with reverse=True). -/
theorem filter_sortDesc {α β : Type} [LinearOrder β] (key : α → β) (l : List α) (c : β) :
    (sortDesc key l).filter (fun a => decide (key a = c)) =
      l.filter (fun a => decide (key a = c)) := by
  induction l with
  | nil => rfl
  | cons x l ih =>
      show (insertDesc key x (sortDesc key l)).filter _ = _
      rw [filter_insertDesc, List.filter_cons, ih]
      by_cases hx : key x = c <;> simp [hx]

/-- In a sorted list, every element kept by `take n` is related to every
element of the matching `drop n`. -/
theorem sorted_take_drop {α : Type} {r : α → α → Prop} {l : List α} (h : l.Sorted r)
    (n : ℕ) : ∀ a ∈ l.take n, ∀ b ∈ l.drop n, r a b := by
  have := List.take_append_drop n l
  rw [← this] at h
  exact fun a ha b hb => ((List.pairwise_append.mp h).2.2) a ha b hb

/-- Lookup in the word-frequency dict built over an accumulator: a
qualifying word that occurs gets its occurrence count added to the
accumulated count, anything else reads the accumulator. -/
theorem word_freq_fold_get (ws : List String) :
    ∀ (m : List (String × ℕ)) (w : String),
      dictGet
          (ws.foldl
            (fun m w => if fallback_word w then dictSet m w ((dictGet m w).getD 0 + 1) else m)
            m) w =
        if fallback_word w = true ∧ w ∈ ws then some ((dictGet m w).getD 0 + ws.count w)
        else dictGet m w := by
  induction ws with
  | nil => intro m w; simp
  | cons x rest ih =>
      intro m w
      simp only [List.foldl_cons]
      by_cases hx : fallback_word x
      · rw [if_pos hx, ih, dictGet_dictSet]
        by_cases hw : x = w
        · cases hw
          rw [if_pos rfl]
          by_cases hmem : x ∈ rest
          · rw [if_pos ⟨hx, hmem⟩, if_pos ⟨hx, List.mem_cons_self x rest⟩]
            simp only [Option.getD_some, List.count_cons_self, Option.some.injEq]
            omega
          · rw [if_neg (fun h => hmem h.2), if_pos ⟨hx, List.mem_cons_self x rest⟩]
            have hc : (x :: rest).count x = 1 := by
              rw [List.count_cons_self, List.count_eq_zero.mpr hmem]
            rw [hc]
        · rw [if_neg hw]
          have hw2 : ¬ w = x := fun h => hw h.symm
          have hc : (x :: rest).count w = rest.count w := by
            simp [List.count_cons, hw2]
          have hmem : (w ∈ x :: rest) ↔ w ∈ rest := by
            simp [List.mem_cons, hw2]
          rw [hc]
          by_cases h2 : fallback_word w = true ∧ w ∈ rest
          · rw [if_pos h2, if_pos ⟨h2.1, hmem.mpr h2.2⟩]
          · rw [if_neg h2, if_neg (fun h => h2 ⟨h.1, hmem.mp h.2⟩)]
      · rw [if_neg hx, ih]
        by_cases h2 : fallback_word w = true ∧ w ∈ rest
        · rw [if_pos h2, if_pos ⟨h2.1, List.mem_cons_of_mem x h2.2⟩]
          have hw2 : ¬ w = x := fun h => hx (h ▸ h2.1)
          have hc : (x :: rest).count w = rest.count w := by
            simp [List.count_cons, hw2]
          rw [hc]
        · rw [if_neg h2]
          by_cases h3 : fallback_word w = true ∧ w ∈ x :: rest
          · rcases List.mem_cons.mp h3.2 with hh | hh
            · exact absurd (hh ▸ h3.1) hx
            · exact absurd ⟨h3.1, hh⟩ h2
          · rw [if_neg h3]

/-- Lookup in the word-frequency dict: a qualifying occurring word maps to
its occurrence count; everything else is absent. -/
theorem word_freq_get (ws : List String) (w : String) :
    dictGet (word_freq ws) w =
      if fallback_word w = true ∧ w ∈ ws then some (ws.count w) else none := by
  rw [word_freq, word_freq_fold_get]
  simp [dictGet]

/-- The keys of the word-frequency dict are distinct. -/
theorem word_freq_nodup_keys (ws : List String) :
    ((word_freq ws).map Prod.fst).Nodup := by
  suffices h : ∀ m : List (String × ℕ), (m.map Prod.fst).Nodup →
      ((ws.foldl
        (fun m w => if fallback_word w then dictSet m w ((dictGet m w).getD 0 + 1) else m)
        m).map Prod.fst).Nodup by
    exact h [] (by simp)
  induction ws with
  | nil => intro m hm; simpa using hm
  | cons x rest ih =>
      intro m hm
      simp only [List.foldl_cons]
      by_cases hx : fallback_word x
      · rw [if_pos hx]
        exact ih _ (nodup_keys_dictSet _ _ _ hm)
      · rw [if_neg hx]
        exact ih _ hm

/-- Every pair of the word-frequency dict is a qualifying word occurring in
the input together with its occurrence count. -/
theorem word_freq_pair (ws : List String) {p : String × ℕ} (hp : p ∈ word_freq ws) :
    fallback_word p.1 = true ∧ p.1 ∈ ws ∧ p.2 = ws.count p.1 := by
  have := dictGet_eq_some_of_mem (word_freq_nodup_keys ws) hp
  rw [word_freq_get] at this
  by_cases h : fallback_word p.1 = true ∧ p.1 ∈ ws
  · rw [if_pos h] at this
    exact ⟨h.1, h.2, (Option.some.inj this).symm⟩
  · rw [if_neg h] at this
    cases this

/-- Every qualifying occurring word appears in the word-frequency dict with
its occurrence count. -/
theorem word_freq_complete (ws : List String) {w : String}
    (h1 : fallback_word w = true) (h2 : w ∈ ws) :
    (w, ws.count w) ∈ word_freq ws :=
  mem_of_dictGet_eq_some (by rw [word_freq_get, if_pos ⟨h1, h2⟩])

/-- Lookup in the content-type histogram built over an accumulator. -/
theorem hist_fold_get (l : List Entry) :
    ∀ (m : List (String × ℕ)) (ct : String),
      (dictGet
          (l.foldl
            (fun m e =>
              dictSet m (entry_content_type e) ((dictGet m (entry_content_type e)).getD 0 + 1))
            m) ct).getD 0 =
        (dictGet m ct).getD 0 + (l.filter fun e => decide (entry_content_type e = ct)).length := by
  induction l with
  | nil => intro m ct; simp
  | cons e rest ih =>
      intro m ct
      simp only [List.foldl_cons, ih, List.filter_cons]
      rw [dictGet_dictSet]
      by_cases h : entry_content_type e = ct
      · simp [h]
        omega
      · simp [h]

/-- The content-type histogram counts, for every content type, the entries
carrying that type (with the "other" default for a missing key). -/
theorem content_types_hist_get (l : List Entry) (ct : String) :
    (dictGet (content_types_hist l) ct).getD 0 =
      (l.filter fun e => decide (entry_content_type e = ct)).length := by
  rw [content_types_hist, hist_fold_get]
  simp [dictGet]

/-- The FAQ accumulator is the sum of the per-entry FAQ list lengths. -/
theorem total_faqs_count_eq_sum (l : List Entry) :
    total_faqs_count l = (l.map fun e => e.faq_questions.length).sum := by
  suffices h : ∀ n, l.foldl (fun n e => n + e.faq_questions.length) n =
      n + (l.map fun e => e.faq_questions.length).sum by
    simpa using h 0
  induction l with
  | nil => intro n; simp
  | cons e rest ih =>
      intro n
      simp only [List.foldl_cons, List.map_cons, List.sum_cons, ih]
      omega

/-- The keyword set accumulator is the set of all keywords of all entries. -/
theorem total_keywords_set_eq (l : List Entry) :
    total_keywords_set l = ((l.map Entry.keywords).flatten).toFinset := by
  suffices h : ∀ s : Finset String, l.foldl (fun s e => s ∪ e.keywords.toFinset) s =
      s ∪ ((l.map Entry.keywords).flatten).toFinset by
    simpa using h ∅
  induction l with
  | nil => intro s; simp
  | cons e rest ih =>
      intro s
      simp only [List.foldl_cons, ih, List.map_cons, List.flatten_cons, List.toFinset_append]
      rw [Finset.union_assoc]

/-- The by-relevance list accumulated by the search-index loop is the
entry-order list of relevance records. -/
theorem foldl_search_by_relevance (l : List Entry) :
    ∀ s : SearchIndex,
      (l.foldl search_index_step s).by_relevance = s.by_relevance ++ l.map mk_rel_rec := by
  induction l with
  | nil => intro s; simp
  | cons e rest ih =>
      intro s
      simp only [List.foldl_cons, ih, search_index_step, List.map_cons]
      simp

/-- The consolidated FAQ section has one record per FAQ question of every
entry. -/
theorem length_create_faq_section (l : List Entry) :
    (create_faq_section l).length = total_faqs_count l := by
  rw [create_faq_section, length_sortDesc, faq_raw, total_faqs_count_eq_sum,
    List.length_flatten, List.map_map]
  congr 1
  apply List.map_congr_left
  intro e _
  simp

/-- A page record produced by scrape_page carries at least
MIN_CONTENT_LENGTH characters of content (web_scraper.py lines 228-231). -/
theorem scrape_page_min_content {w : World} {minLen : ℕ} {visited : List String}
    {url : String} {pd : PageData} (h : scrape_page w minLen visited url = some pd) :
    minLen ≤ pd.content.length := by
  cases hw : w url with
  | none => simp [scrape_page, hw] at h
  | some fp =>
      by_cases hlen : fp.all_text.length < minLen
      · simp [scrape_page, hw, hlen] at h
      · simp only [scrape_page, hw, if_neg hlen] at h
        cases h
        simpa using le_of_not_lt hlen

/-- Every record the crawl loop adds to the accumulated results passed the
minimum-content filter, so the bound propagates from the initial
accumulator to the final result, for every step budget. -/
theorem crawl_min_content (w : World) (minLen maxPages : ℕ) :
    ∀ (fuel : ℕ) (frontier visited : List String) (scraped : List PageData),
      (∀ pd ∈ scraped, minLen ≤ pd.content.length) →
      ∀ pd ∈ crawl w minLen maxPages fuel frontier visited scraped,
        minLen ≤ pd.content.length := by
  intro fuel
  induction fuel with
  | zero =>
      intro frontier visited scraped h pd hpd
      simp only [crawl] at hpd
      exact h pd hpd
  | succ fuel ih =>
      intro frontier visited scraped h pd hpd
      cases frontier with
      | nil =>
          simp only [crawl] at hpd
          exact h pd hpd
      | cons url rest =>
          simp only [crawl] at hpd
          by_cases h1 : maxPages ≤ scraped.length
          · rw [if_pos h1] at hpd
            exact h pd hpd
          · rw [if_neg h1] at hpd
            by_cases h2 : url ∈ visited
            · rw [if_pos h2] at hpd
              exact ih rest visited scraped h pd hpd
            · rw [if_neg h2] at hpd
              cases hsp : scrape_page w minLen (url :: visited) url with
              | none =>
                  simp only [hsp] at hpd
                  exact ih rest (url :: visited) scraped h pd hpd
              | some pd2 =>
                  simp only [hsp] at hpd
                  refine ih _ _ _ ?_ pd hpd
                  intro q hq
                  rcases List.mem_append.mp hq with hq | hq
                  · exact h q hq
                  · rw [List.mem_singleton.mp hq]
                    exact scrape_page_min_content hsp

/-- C1 (failing-input evaluation): scrape_website resets visited_urls but
not scraped_data (web_scraper.py line 254 resets only the visited set; the
GUI subclass in gui_scraper.py line 1089 does reset scraped_data), so a
second invocation on the same WebScraper instance returns a results list in
which the same URL appears twice: the claimed uniqueness of PageRecord.url
in the returned list fails for that invocation. -/
theorem C1_duplicate_url_on_second_invocation :
    (scrape_website one_page_world 100 50 10
        (scrape_website one_page_world 100 50 10 [] one_page_url) one_page_url).map
      PageData.url = [one_page_url, one_page_url] ∧
    ¬ ((scrape_website one_page_world 100 50 10
        (scrape_website one_page_world 100 50 10 [] one_page_url) one_page_url).map
      PageData.url).Nodup := by
  constructor
  · decide
  · decide

/-- C2 (counterexample): the href `http://x.com/a?x=1#frag` is NOT accepted
and canonicalized — is_valid_url rejects any URL carrying a fragment
(web_scraper.py lines 68-70), so that href never enters the link set, while
`http://x.com/a` does: the two are not treated as the same node. -/
theorem C2_counterexample :
    is_valid_url ⟨"http", "x.com", "/a", "x=1", "frag"⟩ ⟨"http", "x.com", "/", "", ""⟩
        = false ∧
    find_internal_links [⟨"http", "x.com", "/a", "x=1", "frag"⟩]
        ⟨"http", "x.com", "/", "", ""⟩ [] = [] ∧
    find_internal_links [⟨"http", "x.com", "/a", "", ""⟩]
        ⟨"http", "x.com", "/", "", ""⟩ [] = ["http://x.com/a"] := by
  refine ⟨?_, ?_, ?_⟩ <;> decide

/-- C2 (amended): canonicalization ignores the query and the fragment
components, so two ACCEPTED hrefs differing only in query string map to the
same canonical URL; a resolved href carrying a fragment, however, is
rejected by is_valid_url outright rather than canonicalized. -/
theorem C2_canonicalization_amended :
    (∀ s n p q1 q2 f1 f2 : String,
        clean_url ⟨s, n, p, q1, f1⟩ = clean_url ⟨s, n, p, q2, f2⟩) ∧
    ∀ u base : Url, is_valid_url u base = true → u.fragment = "" := by
  constructor
  · intro s n p q1 q2 f1 f2
    rfl
  · intro u base h
    by_contra hf
    have hfalse : is_valid_url u base = false := by
      unfold is_valid_url
      split_ifs
      all_goals rfl
    rw [hfalse] at h
    cases h

/-- C2 amended witness: the two query variants of `/a` canonicalize
identically, and a concretely accepted URL indeed has no fragment. -/
theorem C2_amended_witness :
    clean_url ⟨"http", "x.com", "/a", "x=1", "frag"⟩ =
        clean_url ⟨"http", "x.com", "/a", "", ""⟩ ∧
    Url.fragment ⟨"http", "x.com", "/a", "x=1", ""⟩ = "" :=
  ⟨C2_canonicalization_amended.1 "http" "x.com" "/a" "x=1" "" "frag" "",
    C2_canonicalization_amended.2 ⟨"http", "x.com", "/a", "x=1", ""⟩
      ⟨"http", "x.com", "/", "", ""⟩ (by decide)⟩

/-- C3: a fetched page whose extracted text is strictly shorter than
MIN_CONTENT_LENGTH yields no page record, a page whose text length equals
MIN_CONTENT_LENGTH yields one, and every record a crawl accumulates
satisfies the bound (web_scraper.py lines 226-231). -/
theorem C3_min_content_filter (w : World) (minLen maxPages : ℕ) (visited : List String)
    (url : String) :
    (∀ fp, w url = some fp → fp.all_text.length < minLen →
        scrape_page w minLen visited url = none) ∧
    (∀ fp, w url = some fp → fp.all_text.length = minLen →
        scrape_page w minLen visited url =
          some ⟨url, fp.all_text, find_internal_links fp.anchors fp.base visited⟩) ∧
    (∀ pd, scrape_page w minLen visited url = some pd → minLen ≤ pd.content.length) ∧
    (∀ fuel frontier vis pd, pd ∈ crawl w minLen maxPages fuel frontier vis [] →
        minLen ≤ pd.content.length) := by
  refine ⟨?_, ?_, ?_, ?_⟩
  · intro fp hw hlen
    simp [scrape_page, hw, hlen]
  · intro fp hw hlen
    simp only [scrape_page, hw]
    rw [if_neg (by omega)]
  · intro pd h
    exact scrape_page_min_content h
  · intro fuel frontier vis pd h
    exact crawl_min_content w minLen maxPages fuel frontier vis [] (by simp) pd h

/-- C3 witness: in the boundary world, the 99-character page is discarded,
the 100-character page yields a record, and that record satisfies the
content bound. -/
theorem C3_witness :
    scrape_page boundary_world 100 [] "http://s.com/a" = none ∧
    scrape_page boundary_world 100 [] "http://s.com/b" =
      some ⟨"http://s.com/b", String.mk (List.replicate 100 'b'), []⟩ ∧
    100 ≤ (String.mk (List.replicate 100 'b')).length := by
  refine ⟨?_, ?_, ?_⟩
  · exact (C3_min_content_filter boundary_world 100 50 [] "http://s.com/a").1
      ⟨String.mk (List.replicate 99 'a'), [], ⟨"http", "s.com", "/a", "", ""⟩⟩
      (by decide) (by decide)
  · have h := (C3_min_content_filter boundary_world 100 50 [] "http://s.com/b").2.1
      ⟨String.mk (List.replicate 100 'b'), [], ⟨"http", "s.com", "/b", "", ""⟩⟩
      (by decide) (by decide)
    simpa [find_internal_links] using h
  · exact (C3_min_content_filter boundary_world 100 50 [] "http://s.com/b").2.2.1
      ⟨"http://s.com/b", String.mk (List.replicate 100 'b'), []⟩ (by decide)

/-- C4 (counterexample): find_internal_links is NOT a function of the
document and the base URL alone — with the same single-anchor document and
base URL, an empty visited set yields the node while a visited set already
containing it yields nothing (web_scraper.py line 213 consults
self.visited_urls). -/
theorem C4_counterexample :
    find_internal_links [⟨"http", "x.com", "/a", "", ""⟩]
        ⟨"http", "x.com", "/", "", ""⟩ [] ≠
      find_internal_links [⟨"http", "x.com", "/a", "", ""⟩]
        ⟨"http", "x.com", "/", "", ""⟩ ["http://x.com/a"] := by
  decide

/-- C4 (amended): find_internal_links is a function of the document, the
base URL AND the scraper's visited set: it returns, without duplicates,
exactly the canonical URLs of the anchors passing the acceptance rules that
are not already in the visited set; for a fixed visited set the same
(doc, baseUrl) input always yields the same set. -/
theorem C4_link_set_characterization (anchors : List Url) (base : Url)
    (visited : List String) :
    (find_internal_links anchors base visited).Nodup ∧
    ∀ s : String, s ∈ find_internal_links anchors base visited ↔
      ((∃ a ∈ anchors, is_valid_url a base = true ∧ clean_url a = s) ∧ ¬ s ∈ visited) := by
  constructor
  · exact List.nodup_dedup _
  · intro s
    simp only [find_internal_links, List.mem_dedup, List.mem_filter, List.mem_map,
      decide_eq_true_eq]
    tauto

/-- C4 amended witness: the canonical URL of an accepted anchor is a member
of the resolved link set when it is not in the visited set. -/
theorem C4_amended_witness :
    "http://x.com/a" ∈ find_internal_links [⟨"http", "x.com", "/a", "", ""⟩]
      ⟨"http", "x.com", "/", "", ""⟩ [] :=
  ((C4_link_set_characterization [⟨"http", "x.com", "/a", "", ""⟩]
      ⟨"http", "x.com", "/", "", ""⟩ []).2 "http://x.com/a").mpr
    ⟨⟨⟨"http", "x.com", "/a", "", ""⟩, by decide, by decide, by decide⟩, by simp⟩

/-- C5: after create_knowledge_base_structure, every list keyed by
relevance — the global by-relevance search list, the flattened FAQ section,
and every per-topic and per-keyword bucket — is sorted in non-increasing
relevance_score order with ties keeping their original relative order
(stated as: filtering any such list to one score value gives exactly the
corresponding slice of the pre-sort, entry-ordered list), and the entries
with scores [0.2, 0.9, 0.5] emerge as [0.9, 0.5, 0.2]. -/
theorem C5_relevance_sorted (l : List Entry) (website_url now : String) :
    ((create_knowledge_base_structure l website_url now).search_index.by_relevance.Sorted
        fun a b => b.relevance_score ≤ a.relevance_score) ∧
    (∀ c : ℚ,
        (create_knowledge_base_structure l website_url now).search_index.by_relevance.filter
            (fun r => decide (r.relevance_score = c)) =
          (l.map mk_rel_rec).filter (fun r => decide (r.relevance_score = c))) ∧
    ((create_knowledge_base_structure l website_url now).faq_section.Sorted
        fun a b => b.relevance_score ≤ a.relevance_score) ∧
    (∀ c : ℚ,
        (create_knowledge_base_structure l website_url now).faq_section.filter
            (fun r => decide (r.relevance_score = c)) =
          (faq_raw l).filter (fun r => decide (r.relevance_score = c))) ∧
    (∀ p ∈ (create_knowledge_base_structure l website_url now).topics_index,
        ∃ b, (p.1, b) ∈ buckets_raw Entry.key_topics l ∧
          (p.2.Sorted fun a b2 => b2.relevance_score ≤ a.relevance_score) ∧
          ∀ c : ℚ, p.2.filter (fun r => decide (r.relevance_score = c)) =
            b.filter (fun r => decide (r.relevance_score = c))) ∧
    (∀ p ∈ (create_knowledge_base_structure l website_url now).keywords_index,
        ∃ b, (p.1, b) ∈ buckets_raw Entry.keywords l ∧
          (p.2.Sorted fun a b2 => b2.relevance_score ≤ a.relevance_score) ∧
          ∀ c : ℚ, p.2.filter (fun r => decide (r.relevance_score = c)) =
            b.filter (fun r => decide (r.relevance_score = c))) ∧
    ((create_knowledge_base_structure score_entries website_url now).search_index.by_relevance.map
        RelRec.relevance_score = [9 / 10, 1 / 2, 1 / 5]) ∧
    ((create_knowledge_base_structure score_entries website_url now).faq_section.map
        FaqRec.relevance_score = [9 / 10, 1 / 2, 1 / 5]) := by
  have hrel : ∀ l' : List Entry,
      (create_knowledge_base_structure l' website_url now).search_index.by_relevance =
        sortDesc RelRec.relevance_score (l'.map mk_rel_rec) := by
    intro l'
    show (create_search_index l').by_relevance = _
    simp only [create_search_index]
    rw [foldl_search_by_relevance]
    simp
  refine ⟨?_, ?_, ?_, ?_, ?_, ?_, ?_, ?_⟩
  · rw [hrel l]
    exact sorted_sortDesc _ _
  · intro c
    rw [hrel l]
    exact filter_sortDesc _ _ _
  · exact sorted_sortDesc FaqRec.relevance_score (faq_raw l)
  · intro c
    exact filter_sortDesc FaqRec.relevance_score (faq_raw l) c
  · intro p hp
    obtain ⟨q, hq, hfq⟩ := List.mem_map.mp hp
    have h1 : p.1 = q.1 := by rw [← hfq]
    have h2 : p.2 = sortDesc RelRec.relevance_score q.2 := by rw [← hfq]
    refine ⟨q.2, ?_, ?_, ?_⟩
    · rw [h1, Prod.mk.eta]
      exact hq
    · rw [h2]
      exact sorted_sortDesc _ _
    · intro c
      rw [h2]
      exact filter_sortDesc _ _ _
  · intro p hp
    obtain ⟨q, hq, hfq⟩ := List.mem_map.mp hp
    have h1 : p.1 = q.1 := by rw [← hfq]
    have h2 : p.2 = sortDesc RelRec.relevance_score q.2 := by rw [← hfq]
    refine ⟨q.2, ?_, ?_, ?_⟩
    · rw [h1, Prod.mk.eta]
      exact hq
    · rw [h2]
      exact sorted_sortDesc _ _
    · intro c
      rw [h2]
      exact filter_sortDesc _ _ _
  · rw [hrel score_entries]
    norm_num [score_entries, sample_entry, mk_rel_rec, entry_relevance, sortDesc, insertDesc]
  · show (create_faq_section score_entries).map FaqRec.relevance_score = _
    norm_num [create_faq_section, faq_raw, score_entries, sample_entry, entry_relevance,
      sortDesc, insertDesc]

/-- C5 witness: the theorem applied to the concrete three-entry scenario,
with the hypothesis that the pair is a member of the topics index
discharged by evaluation. -/
theorem C5_witness :
    ∃ b, ("topic", b) ∈ buckets_raw Entry.key_topics score_entries ∧
      (([(⟨"u2", "t2", 9 / 10⟩ : RelRec), ⟨"u3", "t3", 1 / 2⟩, ⟨"u1", "t1", 1 / 5⟩]).Sorted
        fun a b2 => b2.relevance_score ≤ a.relevance_score) ∧
      ∀ c : ℚ,
        ([(⟨"u2", "t2", 9 / 10⟩ : RelRec), ⟨"u3", "t3", 1 / 2⟩, ⟨"u1", "t1", 1 / 5⟩]).filter
            (fun r => decide (r.relevance_score = c)) =
          b.filter (fun r => decide (r.relevance_score = c)) := by
  have h : (create_knowledge_base_structure score_entries "http://x.com" "T").topics_index =
      [("topic",
        [(⟨"u2", "t2", 9 / 10⟩ : RelRec), ⟨"u3", "t3", 1 / 2⟩, ⟨"u1", "t1", 1 / 5⟩])] := by
    show create_topics_index score_entries = _
    norm_num [create_topics_index, buckets_raw, score_entries, sample_entry, mk_rel_rec,
      entry_relevance, dictGet, dictSet, sortDesc, insertDesc]
  exact (C5_relevance_sorted score_entries "http://x.com" "T").2.2.2.2.1
    ("topic", [(⟨"u2", "t2", 9 / 10⟩ : RelRec), ⟨"u3", "t3", 1 / 2⟩, ⟨"u1", "t1", 1 / 5⟩])
    (by rw [h]; exact List.mem_singleton_self _)

/-- C6 (counterexample): create_knowledge_base_structure reads the clock
(datetime.now().isoformat(), knowledge_base_formatter.py line 38) into
metadata.created_at, so two calls with identical entry list and website URL
but different call times produce different documents: the function is not
pure in its two declared inputs. -/
theorem C6_counterexample :
    create_knowledge_base_structure [] "http://x.com" "2024-01-01T00:00:00" ≠
      create_knowledge_base_structure [] "http://x.com" "2024-01-01T00:00:01" := by
  decide

/-- C6 (amended): create_knowledge_base_structure is a pure function of the
entries, the website URL and the clock reading: two calls with the same
entries and URL agree on every component except metadata.created_at, which
carries the call time. -/
theorem C6_pure_except_created_at (l : List Entry) (u t1 t2 : String) :
    (create_knowledge_base_structure l u t1).pages =
        (create_knowledge_base_structure l u t2).pages ∧
    (create_knowledge_base_structure l u t1).search_index =
        (create_knowledge_base_structure l u t2).search_index ∧
    (create_knowledge_base_structure l u t1).faq_section =
        (create_knowledge_base_structure l u t2).faq_section ∧
    (create_knowledge_base_structure l u t1).topics_index =
        (create_knowledge_base_structure l u t2).topics_index ∧
    (create_knowledge_base_structure l u t1).keywords_index =
        (create_knowledge_base_structure l u t2).keywords_index ∧
    (create_knowledge_base_structure l u t1).metadata =
        { (create_knowledge_base_structure l u t2).metadata with created_at := t1 } :=
  ⟨rfl, rfl, rfl, rfl, rfl, rfl⟩

/-- C7: the metadata aggregates are correct for every entries list:
total_pages is the number of entries, content_types is the histogram of the
entries' content types, total_faqs is the summed FAQ-question count and
equals the length of the flattened FAQ section, and total_keywords is the
cardinality of the union of the per-entry keyword lists. -/
theorem C7_metadata_aggregates (l : List Entry) (u now : String) :
    (create_knowledge_base_structure l u now).metadata.total_pages = l.length ∧
    (∀ ct : String,
        (dictGet (create_knowledge_base_structure l u now).metadata.content_types ct).getD 0 =
          (l.filter fun e => decide (entry_content_type e = ct)).length) ∧
    (create_knowledge_base_structure l u now).metadata.total_faqs =
        (l.map fun e => e.faq_questions.length).sum ∧
    (create_knowledge_base_structure l u now).metadata.total_faqs =
        (create_knowledge_base_structure l u now).faq_section.length ∧
    (create_knowledge_base_structure l u now).metadata.total_keywords =
        ((l.map Entry.keywords).flatten).toFinset.card := by
  refine ⟨rfl, ?_, ?_, ?_, ?_⟩
  · intro ct
    exact content_types_hist_get l ct
  · exact total_faqs_count_eq_sum l
  · exact (length_create_faq_section l).symm
  · show (total_keywords_set l).card = _
    rw [total_keywords_set_eq]

/-- C8 (counterexample): an unparseable enrichment response does yield a
fallback record (processing_method = "fallback"), but the claimed
non-emptiness of its keywords fails when the raw content has no purely
alphabetic word longer than 3 characters — for empty content the keyword
list is empty. -/
theorem C8_counterexample :
    (process_content_for_knowledge_base (fun _ => none) "this is not json" "" "u" "t"
        "2024-01-01").processing_method = some "fallback" ∧
    (process_content_for_knowledge_base (fun _ => none) "this is not json" "" "u" "t"
        "2024-01-01").keywords = [] := by
  constructor
  · rfl
  · rfl

/-- C8 (amended): when the enrichment response fails to parse, the
processing stage returns (it cannot raise) exactly the fallback record:
processing_method = "fallback" and keywords are the top 10 words of the
lower-cased content among purely alphabetic words longer than 3 characters,
ranked by non-increasing occurrence count (any qualifying word left out has
a count no larger than every kept word); the keyword list is non-empty
whenever at least one qualifying word occurs — but only then. -/
theorem C8_fallback_characterization (parse : String → Option ParsedKB)
    (response content url title now : String) (h : parse response = none) :
    process_content_for_knowledge_base parse response content url title now =
        create_fallback_entry content url title now ∧
    (process_content_for_knowledge_base parse response content url title now).processing_method
        = some "fallback" ∧
    (process_content_for_knowledge_base parse response content url title now).keywords =
        fallback_keywords content ∧
    (fallback_keywords content).length ≤ 10 ∧
    (∀ w ∈ fallback_keywords content,
        fallback_word w = true ∧ w ∈ py_split_ws (str_lower content)) ∧
    ((fallback_keywords content).map
        fun w => (py_split_ws (str_lower content)).count w).Sorted (· ≥ ·) ∧
    (∀ w, w ∈ py_split_ws (str_lower content) → fallback_word w = true →
        w ∉ fallback_keywords content →
        ∀ w2 ∈ fallback_keywords content,
          (py_split_ws (str_lower content)).count w ≤
            (py_split_ws (str_lower content)).count w2) ∧
    (∀ w ∈ py_split_ws (str_lower content), fallback_word w = true →
        fallback_keywords content ≠ []) := by
  have hproc : process_content_for_knowledge_base parse response content url title now =
      create_fallback_entry content url title now := by
    simp [process_content_for_knowledge_base, h]
  refine ⟨hproc, ?_, ?_, ?_, ?_, ?_, ?_, ?_⟩
  · rw [hproc]
    rfl
  · rw [hproc]
    rfl
  · rw [fallback_keywords, List.length_map]
    exact List.length_take_le _ _
  · intro w hw
    rcases List.mem_map.mp hw with ⟨p, hp, hpw⟩
    have hpf : p ∈ word_freq (py_split_ws (str_lower content)) :=
      (mem_sortDesc _ _ _).mp (List.mem_of_mem_take hp)
    have hx := word_freq_pair _ hpf
    exact hpw ▸ ⟨hx.1, hx.2.1⟩
  · have hs : (sortDesc Prod.snd (word_freq (py_split_ws (str_lower content)))).Sorted
        fun a b => b.2 ≤ a.2 := sorted_sortDesc _ _
    have htake : ((sortDesc Prod.snd
        (word_freq (py_split_ws (str_lower content)))).take 10).Sorted
        fun a b => b.2 ≤ a.2 :=
      List.Pairwise.sublist (List.take_sublist 10 _) hs
    rw [fallback_keywords, List.map_map]
    refine List.pairwise_map.mpr ?_
    refine List.Pairwise.imp_of_mem ?_ htake
    intro a b ha hb hr
    have hca : a.2 = (py_split_ws (str_lower content)).count a.1 :=
      (word_freq_pair _ ((mem_sortDesc _ _ _).mp (List.mem_of_mem_take ha))).2.2
    have hcb : b.2 = (py_split_ws (str_lower content)).count b.1 :=
      (word_freq_pair _ ((mem_sortDesc _ _ _).mp (List.mem_of_mem_take hb))).2.2
    show (py_split_ws (str_lower content)).count b.1 ≤
      (py_split_ws (str_lower content)).count a.1
    rw [← hca, ← hcb]
    exact hr
  · intro w hwm hwf hwn w2 hw2
    have hpair := word_freq_complete (py_split_ws (str_lower content)) hwf hwm
    have hmem_s : (w, (py_split_ws (str_lower content)).count w) ∈
        sortDesc Prod.snd (word_freq (py_split_ws (str_lower content))) :=
      (mem_sortDesc _ _ _).mpr hpair
    have hsplit : (w, (py_split_ws (str_lower content)).count w) ∈
        (sortDesc Prod.snd (word_freq (py_split_ws (str_lower content)))).take 10 ++
          (sortDesc Prod.snd (word_freq (py_split_ws (str_lower content)))).drop 10 := by
      rw [List.take_append_drop]
      exact hmem_s
    have hdrop : (w, (py_split_ws (str_lower content)).count w) ∈
        (sortDesc Prod.snd (word_freq (py_split_ws (str_lower content)))).drop 10 := by
      rcases List.mem_append.mp hsplit with h1 | h1
      · exact absurd (List.mem_map_of_mem Prod.fst h1) hwn
      · exact h1
    rcases List.mem_map.mp hw2 with ⟨p, hp, hpw⟩
    have hs10 := sorted_take_drop (sorted_sortDesc Prod.snd
      (word_freq (py_split_ws (str_lower content)))) 10 p hp
      (w, (py_split_ws (str_lower content)).count w) hdrop
    have hp2 : p.2 = (py_split_ws (str_lower content)).count p.1 :=
      (word_freq_pair _ ((mem_sortDesc _ _ _).mp (List.mem_of_mem_take hp))).2.2
    rw [← hpw, ← hp2]
    exact hs10
  · intro w hwm hwf hke
    have hpair := word_freq_complete (py_split_ws (str_lower content)) hwf hwm
    rw [fallback_keywords] at hke
    have h2 : (sortDesc Prod.snd (word_freq (py_split_ws (str_lower content)))).take 10 = [] :=
      List.map_eq_nil_iff.mp hke
    have h3 : sortDesc Prod.snd (word_freq (py_split_ws (str_lower content))) = [] := by
      cases hs : sortDesc Prod.snd (word_freq (py_split_ws (str_lower content))) with
      | nil => rfl
      | cons a t =>
          rw [hs] at h2
          simp at h2
    have h4 : word_freq (py_split_ws (str_lower content)) = [] := by
      have hlen := length_sortDesc Prod.snd (word_freq (py_split_ws (str_lower content)))
      rw [h3] at hlen
      exact List.length_eq_zero.mp hlen.symm
    rw [h4] at hpair
    exact List.not_mem_nil _ hpair

/-- C8 witness: on content "alpha alpha beta" with an unparseable response,
the returned keywords are the fallback keywords and they are non-empty. -/
theorem C8_witness :
    (process_content_for_knowledge_base (fun _ => none) "oops" "alpha alpha beta" "u" "t"
        "now").keywords = fallback_keywords "alpha alpha beta" ∧
    fallback_keywords "alpha alpha beta" ≠ [] := by
  constructor
  · exact (C8_fallback_characterization (fun _ => none) "oops" "alpha alpha beta" "u" "t"
      "now" rfl).2.2.1
  · exact (C8_fallback_characterization (fun _ => none) "oops" "alpha alpha beta" "u" "t"
      "now" rfl).2.2.2.2.2.2.2 "alpha" (by decide) (by decide)

/-- C9 (counterexample): the skip-extension test is
`url.lower().endswith(ext)` on the WHOLE URL string, so a path ending in
.pdf followed by a query string is NOT rejected: the link is accepted and
its canonical URL (query stripped) enters the in-scope link set. -/
theorem C9_counterexample :
    is_valid_url ⟨"http", "x.com", "/doc.pdf", "download=1", ""⟩
        ⟨"http", "x.com", "/", "", ""⟩ = true ∧
    find_internal_links [⟨"http", "x.com", "/doc.pdf", "download=1", ""⟩]
        ⟨"http", "x.com", "/", "", ""⟩ [] = ["http://x.com/doc.pdf"] := by
  constructor
  · decide
  · decide

/-- C9 (amended): whenever the rendered URL string, lower-cased, ends with
one of the skip-list extensions (so in particular for any letter case of
the extension, but only when no query string or fragment follows it in the
string), the link is rejected by is_valid_url. -/
theorem C9_skip_extension_rejects (u base : Url)
    (h : skip_extensions.any (fun ext => str_ends_with (str_lower (geturl u)) ext) = true) :
    is_valid_url u base = false := by
  unfold is_valid_url
  split_ifs
  all_goals rfl

/-- C9 amended witness: an upper-case .PDF path with no query is rejected
(case-insensitivity of the extension check). -/
theorem C9_amended_witness :
    is_valid_url ⟨"http", "x.com", "/A.PDF", "", ""⟩ ⟨"http", "x.com", "/", "", ""⟩ = false :=
  C9_skip_extension_rejects ⟨"http", "x.com", "/A.PDF", "", ""⟩
    ⟨"http", "x.com", "/", "", ""⟩ (by decide)

/-- C10: entries missing relevance_score behave exactly as entries carrying
the default 0.5, and entries missing content_type behave exactly as entries
carrying "other": filling the defaults in explicitly changes neither the
metadata (histogram included) nor any of the four indices; the indexer is a
total function, so missing keys cannot make it fail. -/
theorem C10_missing_keys_use_defaults (l : List Entry) (u now : String) :
    (create_knowledge_base_structure l u now).metadata =
        (create_knowledge_base_structure (l.map fill_defaults) u now).metadata ∧
    (create_knowledge_base_structure l u now).search_index =
        (create_knowledge_base_structure (l.map fill_defaults) u now).search_index ∧
    (create_knowledge_base_structure l u now).faq_section =
        (create_knowledge_base_structure (l.map fill_defaults) u now).faq_section ∧
    (create_knowledge_base_structure l u now).topics_index =
        (create_knowledge_base_structure (l.map fill_defaults) u now).topics_index ∧
    (create_knowledge_base_structure l u now).keywords_index =
        (create_knowledge_base_structure (l.map fill_defaults) u now).keywords_index := by
  have hp : (l.map fill_defaults).length = l.length := List.length_map _ _
  have hf : total_faqs_count (l.map fill_defaults) = total_faqs_count l := by
    rw [total_faqs_count, List.foldl_map]
    rfl
  have hk : total_keywords_set (l.map fill_defaults) = total_keywords_set l := by
    rw [total_keywords_set, List.foldl_map]
    rfl
  have hh : content_types_hist (l.map fill_defaults) = content_types_hist l := by
    rw [content_types_hist, List.foldl_map]
    rfl
  have hs : create_search_index (l.map fill_defaults) = create_search_index l := by
    simp only [create_search_index, List.foldl_map]
    rfl
  have hfaq : create_faq_section (l.map fill_defaults) = create_faq_section l := by
    rw [create_faq_section, faq_raw, List.map_map]
    rfl
  have htop : create_topics_index (l.map fill_defaults) = create_topics_index l := by
    rw [create_topics_index, buckets_raw, List.foldl_map]
    rfl
  have hkw : create_keywords_index (l.map fill_defaults) = create_keywords_index l := by
    rw [create_keywords_index, buckets_raw, List.foldl_map]
    rfl
  refine ⟨?_, ?_, ?_, ?_, ?_⟩
  · show (_ : Metadata) = _
    simp only [create_knowledge_base_structure]
    rw [hp, hf, hk, hh]
  · exact hs.symm
  · exact hfaq.symm
  · exact htop.symm
  · exact hkw.symm
